import Mathlib

/-!
# Verification of the aura-wellness knowledge-assistant core

A shallow embedding, in Lean 4, of the query/ingestion pipeline of the
`src/backend/app` package: document chunking (`document_service.chunk_text`),
the SHA-256 based cache key (`cache_service.CacheService._cache_key`), the
tenant-scoped vector retrieval SQL of `query_service.ask_question`, the two
generation providers of `llm_service`, the cache-aside orchestration of
`query_service.ask_question`, and the transactional ingestion of
`document_service.ingest_document` under `database.get_db`.

Modelling conventions:
* Python strings are modelled as `List Char`; `.strip()`, `.lower()`,
  `str.split()` and the regular expressions used by the code are modelled
  character by character (ASCII case folding; the claims evaluate only
  ASCII inputs).
* Embedding vectors (numpy float arrays / pgvector columns) are modelled as
  `List ℚ` — an exact-arithmetic idealisation of the floats; the float
  literal threshold `0.3` is idealised as the rational `3/10`.
* Cosine similarity comparisons (`1 - (embedding <=> qvec)`) involve square
  roots, so similarity comparisons between rational vectors are embedded as
  exact sign-and-square comparisons (`simAbove`, `simGEb` below), which
  decide `cos u q > t` and `cos u q ≥ cos w q` without leaving ℚ.
* External services (the OpenAI chat/embedding APIs, Redis, the JSON parser)
  are modelled by passing their responses in as explicit inputs.
-/

namespace Aura

/-! ## Python string primitives -/

/-- The ASCII whitespace characters recognised by Python's `str.strip`,
`str.split` and the regex class `\s` (claims exercise ASCII only). -/
def isWS (c : Char) : Bool :=
  c = ' ' || c = '\t' || c = '\n' || c = '\r' || c = '\x0b' || c = '\x0c'

/-- Python `str.strip()`: drop leading and trailing whitespace. -/
def strip (s : List Char) : List Char :=
  ((s.dropWhile isWS).reverse.dropWhile isWS).reverse

/-- ASCII lowering of one character (model of `str.lower` on the ASCII range). -/
def lowerCh (c : Char) : Char :=
  if 'A' ≤ c ∧ c ≤ 'Z' then Char.ofNat (c.toNat + 32) else c

/-- Python `str.lower()` (ASCII model). -/
def lower (s : List Char) : List Char := s.map lowerCh

/-- Python `str.split()` with no argument: the maximal runs of
non-whitespace characters, empties discarded.  `acc` holds the current
word, reversed. -/
def pySplitAux : List Char → List Char → List (List Char)
  | acc, [] => if acc = [] then [] else [acc.reverse]
  | acc, c :: rest =>
    if isWS c then
      if acc = [] then pySplitAux [] rest else acc.reverse :: pySplitAux [] rest
    else
      pySplitAux (c :: acc) rest

/-- Python `str.split()` with no argument. -/
def pySplit (s : List Char) : List (List Char) := pySplitAux [] s

/-! ## Chunker (`document_service.py`) -/

/-- `MAX_CHUNK_TOKENS` of `document_service.py`. -/
def MAX_CHUNK_TOKENS : Nat := 500

/-- `_estimate_tokens`: `max(1, int(len(text.split()) / 0.75))`.  Since the
float `0.75` is exact and `w / 0.75 = 4w/3` has fractional part `0`, `1/3` or
`2/3`, the float division followed by `int(·)` truncation equals the natural
floor `4 * w / 3` for every realistic word count `w`. -/
def estTokens (s : List Char) : Nat := max 1 (4 * (pySplit s).length / 3)

/-- `re.split(r"\n{2,}", ·)`: split at each maximal run of two or more
newlines (the greedy regex consumes the whole run).  `acc` holds the
current piece, reversed; `skipNL = true` while the tail of a separator run
is being consumed. -/
def paraSplitAux : Bool → List Char → List Char → List (List Char)
  | _, acc, [] => [acc.reverse]
  | skipNL, acc, c :: rest =>
    if skipNL ∧ c = '\n' then
      paraSplitAux true acc rest
    else if c = '\n' ∧ rest.head? = some '\n' then
      -- `c` is a newline followed by another: a separator run starts here
      acc.reverse :: paraSplitAux true [] rest
    else
      paraSplitAux false (c :: acc) rest

/-- `c` is one of the sentence-ending characters of the overlap regex
`(?<=[.!?])\s+`. -/
def isSentEnd (c : Char) : Bool := c = '.' || c = '!' || c = '?'

/-- `re.split(r"(?<=[.!?])\s+", ·)`: scanning left to right, a piece is
closed when a whitespace run follows a sentence-ending character; the
greedy `\s+` consumes the whole run.  `acc` holds the current piece,
reversed; `skipWS = true` while the tail of a separator run is being
consumed. -/
def sentSplitAux : Bool → List Char → List Char → List (List Char)
  | _, acc, [] => [acc.reverse]
  | skipWS, acc, c :: rest =>
    if skipWS ∧ isWS c then
      sentSplitAux true acc rest
    else if (match acc with | a :: _ => isSentEnd a | [] => false) && isWS c then
      -- `c` is whitespace preceded by `[.!?]`: a separator run starts here
      acc.reverse :: sentSplitAux true [] rest
    else
      sentSplitAux false (c :: acc) rest

/-- `last_sentences[-1]` after `re.split(r"(?<=[.!?])\s+", s)` (the split of
a non-empty string is never the empty list, so the `if last_sentences`
guard of the source always passes; the default is never used). -/
def lastSentence (s : List Char) : List Char := (sentSplitAux false [] s).getLastD []

/-- The `"\n\n"` separator used by `"\n\n".join(current)`. -/
def sepPP : List Char := ['\n', '\n']

/-- The paragraph list of `chunk_text`: split the stripped text on blank
lines, strip each piece, and keep the non-empty ones. -/
def paras (text : List Char) : List (List Char) :=
  ((paraSplitAux false [] (strip text)).map strip).filter (fun p => p ≠ [])

/-- The accumulation loop of `chunk_text`, kept at the level of paragraph
lists: the source accumulates `current: list[str]` and joins with `"\n\n"`
only when a chunk is closed, which `chunk_text` below reproduces. -/
def chunkLoop (maxTokens : Nat) :
    List (List Char) → List (List Char) → Nat → List (List (List Char))
  | [], cur, _ => if cur = [] then [] else [cur]
  | p :: rest, cur, tok =>
    if tok + estTokens p > maxTokens ∧ cur ≠ [] then
      -- close the chunk and seed the next with the overlap sentence
      -- (`current = [overlap, para] if overlap else [para]`), recomputing
      -- the token count from the joined seed
      cur ::
        chunkLoop maxTokens rest
          (if lastSentence (cur.getLastD []) ≠ [] then
            [lastSentence (cur.getLastD []), p]
          else [p])
          (estTokens (List.intercalate sepPP
            (if lastSentence (cur.getLastD []) ≠ [] then
              [lastSentence (cur.getLastD []), p]
            else [p])))
    else
      chunkLoop maxTokens rest (cur ++ [p]) (tok + estTokens p)

/-- `chunk_text` at the granularity of paragraph lists (one inner list per
chunk; its members are the paragraphs, plus the overlap sentence in front
of every chunk after the first). -/
def chunkParas (maxTokens : Nat) (ps : List (List Char)) : List (List (List Char)) :=
  chunkLoop maxTokens ps [] 0

/-- `chunk_text(text, max_tokens)` of `document_service.py`. -/
def chunk_text (text : List Char) (maxTokens : Nat := MAX_CHUNK_TOKENS) :
    List (List Char) :=
  (chunkParas maxTokens (paras text)).map (List.intercalate sepPP)

/-! ## SHA-256 and the cache key (`cache_service.py`)

`CacheService._cache_key` hashes the normalised question with
`hashlib.sha256` and keeps the first 16 hex characters.  SHA-256 is embedded
below over byte lists, with 32-bit words as `Nat` reduced mod `2^32`. -/

/-- Reduce to a 32-bit word. -/
def w32 (n : Nat) : Nat := n % 4294967296

/-- 32-bit right rotation by `n`. -/
def rotr (n x : Nat) : Nat := w32 (x / 2 ^ n + x % 2 ^ n * 2 ^ (32 - n))

/-- 32-bit bitwise complement. -/
def bnot32 (x : Nat) : Nat := Nat.xor x 4294967295

def sig0 (x : Nat) : Nat := Nat.xor (Nat.xor (rotr 7 x) (rotr 18 x)) (x / 2 ^ 3)
def sig1 (x : Nat) : Nat := Nat.xor (Nat.xor (rotr 17 x) (rotr 19 x)) (x / 2 ^ 10)
def bigSig0 (x : Nat) : Nat := Nat.xor (Nat.xor (rotr 2 x) (rotr 13 x)) (rotr 22 x)
def bigSig1 (x : Nat) : Nat := Nat.xor (Nat.xor (rotr 6 x) (rotr 11 x)) (rotr 25 x)
def chf (x y z : Nat) : Nat := Nat.xor (Nat.land x y) (Nat.land (bnot32 x) z)
def majf (x y z : Nat) : Nat :=
  Nat.xor (Nat.xor (Nat.land x y) (Nat.land x z)) (Nat.land y z)

/-- The 64 SHA-256 round constants. -/
def sha256K : List Nat :=
  [1116352408, 1899447441, 3049323471, 3921009573, 961987163, 1508970993,
   2453635748, 2870763221, 3624381080, 310598401, 607225278, 1426881987,
   1925078388, 2162078206, 2614888103, 3248222580, 3835390401, 4022224774,
   264347078, 604807628, 770255983, 1249150122, 1555081692, 1996064986,
   2554220882, 2821834349, 2952996808, 3210313671, 3336571891, 3584528711,
   113926993, 338241895, 666307205, 773529912, 1294757372, 1396182291,
   1695183700, 1986661051, 2177026350, 2456956037, 2730485921, 2820302411,
   3259730800, 3345764771, 3516065817, 3600352804, 4094571909, 275423344,
   430227734, 506948616, 659060556, 883997877, 958139571, 1322822218,
   1537002063, 1747873779, 1955562222, 2024104815, 2227730452, 2361852424,
   2428436474, 2756734187, 3204031479, 3329325298]

/-- The SHA-256 initial hash values. -/
def sha256H0 : List Nat :=
  [1779033703, 3144134277, 1013904242, 2773480762,
   1359893119, 2600822924, 528734635, 1541459225]

/-- Extend the 16 message-schedule words by `k` further words. -/
def wexpand : List Nat → Nat → List Nat
  | w, 0 => w
  | w, k + 1 =>
    let n := w.length
    let nw := w32 (sig1 (w.getD (n - 2) 0) + w.getD (n - 7) 0 +
      sig0 (w.getD (n - 15) 0) + w.getD (n - 16) 0)
    wexpand (w ++ [nw]) k

/-- The eight working registers of the compression loop. -/
structure Regs where
  a : Nat
  b : Nat
  c : Nat
  d : Nat
  e : Nat
  f : Nat
  g : Nat
  h : Nat

/-- One round of the SHA-256 compression function. -/
def sha256Round (r : Regs) (ki wi : Nat) : Regs :=
  let t1 := w32 (r.h + bigSig1 r.e + chf r.e r.f r.g + ki + wi)
  let t2 := w32 (bigSig0 r.a + majf r.a r.b r.c)
  ⟨w32 (t1 + t2), r.a, r.b, r.c, w32 (r.d + t1), r.e, r.f, r.g⟩

/-- Compress one 16-word block into the running hash value. -/
def sha256Compress (hs : List Nat) (block : List Nat) : List Nat :=
  let w := wexpand block 48
  let r0 : Regs := ⟨hs.getD 0 0, hs.getD 1 0, hs.getD 2 0, hs.getD 3 0,
    hs.getD 4 0, hs.getD 5 0, hs.getD 6 0, hs.getD 7 0⟩
  let rf := (sha256K.zip w).foldl (fun r kw => sha256Round r kw.1 kw.2) r0
  [w32 (hs.getD 0 0 + rf.a), w32 (hs.getD 1 0 + rf.b), w32 (hs.getD 2 0 + rf.c),
   w32 (hs.getD 3 0 + rf.d), w32 (hs.getD 4 0 + rf.e), w32 (hs.getD 5 0 + rf.f),
   w32 (hs.getD 6 0 + rf.g), w32 (hs.getD 7 0 + rf.h)]

/-- Big-endian 8-byte encoding (the padded bit length). -/
def be64 (n : Nat) : List Nat :=
  [n / 2 ^ 56 % 256, n / 2 ^ 48 % 256, n / 2 ^ 40 % 256, n / 2 ^ 32 % 256,
   n / 2 ^ 24 % 256, n / 2 ^ 16 % 256, n / 2 ^ 8 % 256, n % 256]

/-- SHA-256 padding: append `0x80`, zeros to 56 mod 64, and the bit length. -/
def padMsg (msg : List Nat) : List Nat :=
  msg ++ 128 :: List.replicate ((119 - msg.length % 64) % 64) 0 ++
    be64 (8 * msg.length)

/-- Group bytes into big-endian 32-bit words. -/
def bytesToWords : List Nat → List Nat
  | a :: b :: c :: d :: rest =>
    (a * 16777216 + b * 65536 + c * 256 + d) :: bytesToWords rest
  | _ => []

/-- Group words into 16-word blocks (the padded message is always a whole
number of 64-byte blocks, so the catch-all case is never reached on the
padded input). -/
def blocksOf16 : List Nat → List (List Nat)
  | [] => []
  | a1 :: a2 :: a3 :: a4 :: a5 :: a6 :: a7 :: a8 ::
    a9 :: a10 :: a11 :: a12 :: a13 :: a14 :: a15 :: a16 :: rest =>
    [a1, a2, a3, a4, a5, a6, a7, a8, a9, a10, a11, a12, a13, a14, a15, a16] ::
      blocksOf16 rest
  | l => [l]

/-- Big-endian 4-byte encoding of a 32-bit word. -/
def be32 (n : Nat) : List Nat := [n / 2 ^ 24 % 256, n / 2 ^ 16 % 256, n / 2 ^ 8 % 256, n % 256]

/-- SHA-256 of a byte list, as the 32-byte digest. -/
def sha256 (msg : List Nat) : List Nat :=
  (((blocksOf16 (bytesToWords (padMsg msg))).foldl sha256Compress sha256H0).map
    be32).flatten

/-- Lowercase hex digit. -/
def hexDigit (n : Nat) : Char :=
  if n < 10 then Char.ofNat (48 + n) else Char.ofNat (87 + n)

/-- Lowercase hex rendering of a byte list (`hexdigest()`). -/
def hexOfBytes (bs : List Nat) : List Char :=
  (bs.map (fun b => [hexDigit (b / 16), hexDigit (b % 16)])).flatten

/-- UTF-8 encoding of one character (Python `str.encode()`). -/
def utf8Char (c : Char) : List Nat :=
  let n := c.toNat
  if n < 128 then [n]
  else if n < 2048 then [192 + n / 64, 128 + n % 64]
  else if n < 65536 then [224 + n / 4096, 128 + n / 64 % 64, 128 + n % 64]
  else [240 + n / 262144, 128 + n / 4096 % 64, 128 + n / 64 % 64, 128 + n % 64]

/-- UTF-8 encoding of a string (Python `str.encode()`). -/
def utf8 (s : List Char) : List Nat := (s.map utf8Char).flatten

/-- The question normalisation of `_cache_key`: `question.strip().lower()`. -/
def normalizeQ (q : List Char) : List Char := lower (strip q)

/-- `hashlib.sha256(normalised.encode()).hexdigest()[:16]`. -/
def qHash16 (q : List Char) : List Char :=
  (hexOfBytes (sha256 (utf8 (normalizeQ q)))).take 16

/-- `CacheService._cache_key(tenant_id, question)`:
the string `ka:query:` + tenant id + `:` + 16-hex-character question hash. -/
def cacheKey (tenant : List Char) (q : List Char) : List Char :=
  "ka:query:".data ++ tenant ++ ':' :: qHash16 q

/-! ## Vector similarity and the retrieval query (`query_service.py`)

The SQL of `ask_question` computes `1 - (dc.embedding <=> :query_vec)`,
pgvector's cosine similarity `dot u q / (‖u‖ ‖q‖)`, keeps rows with
similarity strictly above the threshold, orders by ascending cosine
distance (descending similarity) and limits to `TOP_K`.  Norms involve
square roots, so the two comparisons the query makes — "similarity exceeds
`t`" and "row `a` sorts before row `b`" — are embedded as exact
sign-and-square tests on rationals (`simAbove`, `simGEb`), which agree with
the real-valued comparisons (see `simAbove_iff_real`, `simGEb_iff_real`
further down). -/

/-- Dot product of two vectors (over the common prefix, as numpy would
only ever see equal lengths). -/
def dot : List ℚ → List ℚ → ℚ
  | a :: u, b :: v => a * b + dot u v
  | _, _ => 0

/-- Squared L2 norm. -/
def normSq (u : List ℚ) : ℚ := dot u u

/-- `cos u q > t` for a non-negative threshold `t`, as an exact test:
`dot u q / (√(normSq u) √(normSq q)) > t ≥ 0` iff the dot product is
positive and its square beats `t² ‖u‖² ‖q‖²`.  (A zero vector has zero dot
product with everything, so such rows — whose SQL similarity is `NaN`,
comparing false — are rejected here as well.) -/
def simAbove (u q : List ℚ) (t : ℚ) : Bool :=
  decide (0 < dot u q) && decide (t ^ 2 * (normSq u * normSq q) < dot u q ^ 2)

/-- `cos u q ≥ cos w q`, as an exact sign-and-square test; this is the
order in which `ORDER BY dc.embedding <=> :query_vec` ranks rows `u`
before `w`. -/
def simGEb (u w q : List ℚ) : Bool :=
  if 0 < dot u q then
    if 0 < dot w q then
      decide (dot w q ^ 2 * normSq u ≤ dot u q ^ 2 * normSq w)
    else true
  else if 0 < dot w q then false
  else if dot u q < 0 then
    if dot w q < 0 then
      decide (dot u q ^ 2 * normSq w ≤ dot w q ^ 2 * normSq u)
    else false
  else true

/-- `TOP_K` of `query_service.py`. -/
def TOP_K : Nat := 5

/-- `SIMILARITY_THRESHOLD` of `query_service.py` (the float `0.3`,
idealised as the rational it denotes up to float rounding). -/
def SIMILARITY_THRESHOLD : ℚ := 3 / 10

/-- One row of the relation the retrieval SQL ranges over: a
`document_chunks` row joined with its owning `documents` row (every chunk
row is created together with its document, so the inner join only attaches
`document_title`). -/
structure ChunkRow where
  chunk_id : Nat
  tenant_id : List Char
  document_id : Nat
  document_title : List Char
  content : List Char
  embedding : List ℚ
deriving DecidableEq

/-- The retrieval query of `ask_question` (step 3): filter by tenant and
threshold, order by descending similarity, cap at `TOP_K`.  `rows` is the
joined table in scan order; the SQL specifies no tie-break beyond the
distance key, so ties keep scan order (a stable sort), which is one of the
orders the database may return. -/
def retrieve (rows : List ChunkRow) (tenant : List Char) (qvec : List ℚ) :
    List ChunkRow :=
  ((rows.filter (fun c =>
      c.tenant_id == tenant && simAbove c.embedding qvec SIMILARITY_THRESHOLD)).mergeSort
    (fun a b => simGEb a.embedding b.embedding qvec)).take TOP_K

/-! ## Generation providers (`llm_service.py`) -/

/-- `LLMResult` of `llm_service.py`. -/
structure LLMResult where
  answer : List Char
  refused : Bool
  refused_reason : Option (List Char)
  prompt_tokens : Nat
  completion_tokens : Nat
  total_tokens : Nat
  model : List Char

/-- One entry of the `context_chunks` list handed to a provider
(`chunk_id`, `content`, `document_title`; the float `similarity` entry is
only echoed into `relevance_score`, which no claim depends on, and is not
modelled). -/
structure CtxChunk where
  chunk_id : Nat
  content : List Char
  document_title : List Char
deriving DecidableEq

/-- Row of the joined relation as a provider context entry. -/
def ChunkRow.toCtx (c : ChunkRow) : CtxChunk :=
  ⟨c.chunk_id, c.content, c.document_title⟩

/-- `StubLLMProvider.MODEL_NAME`. -/
def STUB_MODEL : List Char := "stub-model-v1".data

/-- `StubLLMProvider.generate`.  Python's `list({...})` iterates a set in
an unspecified order; it is modelled as `List.dedup` (no claim depends on
the order of the title list inside the answer text). -/
def stubGenerate (question : List Char) (ctx : List CtxChunk) : LLMResult :=
  if ctx = [] then
    { answer := []
      refused := true
      refused_reason :=
        some "No relevant context found in the knowledge base to answer this question.".data
      prompt_tokens := 0, completion_tokens := 0, total_tokens := 0
      model := STUB_MODEL }
  else
    let sourceTitles := (ctx.map (fun c => c.document_title)).dedup
    let excerpts := (ctx.take 3).map (fun c => c.content.take 200)
    let answerText :=
      "Based on the available documentation (".data ++
        List.intercalate ", ".data sourceTitles ++
        "), here is what I found regarding your question:\n\n".data ++
        List.intercalate "\n\n".data (excerpts.map (fun e => "- ".data ++ e))
    let estimatedTokens := (pySplit answerText).length + (pySplit question).length
    { answer := answerText
      refused := false
      refused_reason := none
      prompt_tokens := estimatedTokens / 2
      completion_tokens := estimatedTokens / 2
      total_tokens := estimatedTokens
      model := STUB_MODEL }

/-- The fields `OpenAILLMProvider.generate` reads out of the JSON object
returned by the external model (`parsed.get(...)`). -/
structure JsonFields where
  answer : Option (List Char)
  refused : Option Bool
  refused_reason : Option (List Char)

/-- Token usage as reported by the OpenAI API (`response.usage`). -/
structure ApiUsage where
  prompt_tokens : Nat
  completion_tokens : Nat
  total_tokens : Nat

/-- `OpenAILLMProvider.generate`.  The external chat completion and the
JSON parse of its content are inputs of the model: `content` is
`response.choices[0].message.content`, `usage` is `response.usage`, and
`parsed` is the outcome of `json.loads` on `content or "\x7b\x7d"`
(`none` models a `JSONDecodeError`, in which case the source falls back to
`parsed = dict(answer = raw, confidence = "low")`).  Note that the
provider never inspects `context_chunks` to decide refusal: the `refused`
flag is whatever the external response carries. -/
def openaiGenerate (modelName : List Char) (_question : List Char)
    (_ctx : List CtxChunk) (content : Option (List Char)) (usage : Option ApiUsage)
    (parsed : Option JsonFields) : LLMResult :=
  let raw := content.getD "\x7b\x7d".data
  let pt := (usage.map (fun u => u.prompt_tokens)).getD 0
  let ct := (usage.map (fun u => u.completion_tokens)).getD 0
  let tt := (usage.map (fun u => u.total_tokens)).getD 0
  match parsed with
  | some p =>
    { answer := p.answer.getD raw
      refused := p.refused.getD false
      refused_reason := p.refused_reason
      prompt_tokens := pt, completion_tokens := ct, total_tokens := tt
      model := modelName }
  | none =>
    -- json.loads failed: parsed = dict(answer = raw, confidence = "low"),
    -- so answer = raw and `refused` defaults to False
    { answer := raw
      refused := false
      refused_reason := none
      prompt_tokens := pt, completion_tokens := ct, total_tokens := tt
      model := modelName }

/-! ## The `ask_question` orchestration (`query_service.py`) -/

/-- One element of the `sources` list built in step 5 (`relevance_score`,
a rounded float echo of the similarity, is not modelled). -/
structure SourceRef where
  chunk_id : Nat
  document_title : List Char
  excerpt : List Char
deriving DecidableEq

/-- The `token_usage` sub-dict of the response. -/
structure TokenUsage where
  prompt_tokens : Nat
  completion_tokens : Nat
  total_tokens : Nat
deriving DecidableEq

/-- The response payload of `ask_question` — also exactly what
`set_cached_answer` stores and `get_cached_answer` returns.  The
`request_id` (a fresh random UUID) and `latency_ms` (wall clock) fields
are not modelled. -/
structure ResponseData where
  question : List Char
  answer : List Char
  sources : List SourceRef
  status : List Char
  refused_reason : Option (List Char)
  cached : Bool
  model_used : Option (List Char)
  token_usage : TokenUsage
deriving DecidableEq

/-- An `ai_requests` audit row as created by `ask_question` (generated id
and timing fields not modelled). -/
structure AIRequestRow where
  tenant_id : List Char
  question : List Char
  answer : Option (List Char)
  sources : List SourceRef
  status : List Char
  refused_reason : Option (List Char)
  prompt_tokens : Nat
  completion_tokens : Nat
  total_tokens : Nat
  model_used : Option (List Char)
  cached : Bool
deriving DecidableEq

/-- Everything one call of `ask_question` does: the returned payload, the
audit rows it `db.add`s, and the payload it hands to `set_cached_answer`
(if any). -/
structure AskOutcome where
  response : ResponseData
  audit : List AIRequestRow
  cacheWrite : Option ResponseData
deriving DecidableEq

/-- `ask_question(db, tenant_id, question)`.  Inputs standing for external
collaborators: `cacheLookup` is what `get_cached_answer` returned (`none`
on a miss or a swallowed cache error), `qvec` is the embedding of the
question returned by the embedding provider, and `gen` is the configured
generation provider. -/
def ask_question (rows : List ChunkRow) (tenant question : List Char)
    (cacheLookup : Option ResponseData) (qvec : List ℚ)
    (gen : List Char → List CtxChunk → LLMResult) : AskOutcome :=
  match cacheLookup with
  | some cached =>
    -- step 1, cache hit: audit it and return the payload re-flagged
    { response := { cached with cached := true }
      audit := [{ tenant_id := tenant, question := question
                  answer := some cached.answer
                  sources := cached.sources
                  status := cached.status
                  refused_reason := none
                  prompt_tokens := 0, completion_tokens := 0, total_tokens := 0
                  model_used := cached.model_used
                  cached := true }]
      cacheWrite := none }
  | none =>
    -- steps 2-3: embed and retrieve (tenant-scoped)
    let contextChunks := (retrieve rows tenant qvec).map ChunkRow.toCtx
    -- step 4: generate
    let llmResult := gen question contextChunks
    -- step 5: sources with excerpts truncated to 300 characters
    let sources := contextChunks.map (fun c =>
      { chunk_id := c.chunk_id
        document_title := c.document_title
        excerpt := c.content.take 300 : SourceRef })
    let status := if llmResult.refused then "refused".data else "completed".data
    -- step 6: audit row
    let auditRow : AIRequestRow :=
      { tenant_id := tenant, question := question
        answer := if llmResult.refused then none else some llmResult.answer
        sources := sources
        status := status
        refused_reason := llmResult.refused_reason
        prompt_tokens := llmResult.prompt_tokens
        completion_tokens := llmResult.completion_tokens
        total_tokens := llmResult.total_tokens
        model_used := some llmResult.model
        cached := false }
    let responseData : ResponseData :=
      { question := question
        answer := llmResult.answer
        sources := sources
        status := status
        refused_reason := llmResult.refused_reason
        cached := false
        model_used := some llmResult.model
        token_usage := ⟨llmResult.prompt_tokens, llmResult.completion_tokens,
          llmResult.total_tokens⟩ }
    -- step 7: cache only successful answers
    { response := responseData
      audit := [auditRow]
      cacheWrite := if status = "completed".data then some responseData else none }

/-! ## The Redis store, cache-aside and tenant invalidation -/

/-- The Redis key space as seen by the cache layer: keys with their stored
payloads (TTLs are not modelled; `invalidate_tenant` and `setex` act on
live keys). -/
abbrev Store : Type := List (List Char × ResponseData)

/-- `redis.get` through `get_cached_answer`: the payload under the derived
key, if present. -/
def storeGet (store : Store) (k : List Char) : Option ResponseData :=
  (store.find? (fun kv => kv.1 == k)).map (fun kv => kv.2)

/-- One full `ask_question` call against a cache state: the lookup of
step 1 comes from the store, and the conditional `set_cached_answer` of
step 7 is applied to it. -/
def askWithStore (store : Store) (rows : List ChunkRow)
    (tenant question : List Char) (qvec : List ℚ)
    (gen : List Char → List CtxChunk → LLMResult) : AskOutcome × Store :=
  let o := ask_question rows tenant question
    (storeGet store (cacheKey tenant question)) qvec gen
  (o, match o.cacheWrite with
      | some p => (cacheKey tenant question, p) :: store
      | none => store)

/-- `CacheService.invalidate_tenant`: delete every key matching the glob
`ka:query:{tenant}:*`, i.e. every key with `ka:query:` + tenant + `:` as a
prefix (tenant ids are canonical UUID strings, which contain no glob
metacharacters). -/
def invalidate_tenant (tenant : List Char) (store : Store) : Store :=
  store.filter (fun kv => !(("ka:query:".data ++ tenant ++ [':']).isPrefixOf kv.1))

/-! ## Ingestion and the request transaction (`document_service.py`,
`database.get_db`)

`get_db` opens one session per request, commits after the handler returns
and rolls back if it raises; `ingest_document` only ever `flush`es inside
that transaction, so nothing it adds is visible unless the whole request
succeeds. -/

/-- A `documents` row (timestamps/metadata dict not modelled). -/
structure DocRow where
  id : Nat
  tenant_id : List Char
  title : List Char
  content : List Char
  doc_type : List Char
deriving DecidableEq

/-- A `document_chunks` row as created by ingestion. -/
structure DBChunkRow where
  document_id : Nat
  tenant_id : List Char
  chunk_index : Nat
  content : List Char
  token_count : Nat
  embedding : List ℚ
  document_title_meta : List Char
deriving DecidableEq

/-- The committed database state the claims range over. -/
structure DBState where
  docs : List DocRow
  chunks : List DBChunkRow
deriving DecidableEq

/-- The dict `ingest_document` returns. -/
structure IngestResult where
  document_id : Nat
  title : List Char
  chunk_count : Nat
  total_tokens : Nat
deriving DecidableEq

/-- A failure of the batched embedding call (`embedder.embed` raising). -/
structure EmbedFailure where
  message : List Char
deriving DecidableEq

/-- `ingest_document` inside the session: add the document row, chunk,
embed all chunks in one batch (`embed` is the configured provider and may
fail), add one chunk row per chunk.  `docId` stands for the generated
document UUID.  Returns the session state to be committed, or the
exception that aborts the request.  (The final step of the source — the
call to `cache_service.invalidate_tenant`, which runs only after a
successful flush — acts on the Redis store, modelled separately by
`invalidate_tenant`.) -/
def ingest_document (db : DBState) (embed : List (List Char) →
      Except EmbedFailure (List (List ℚ)))
    (docId : Nat) (tenant title content doc_type : List Char) :
    Except EmbedFailure (DBState × IngestResult) :=
  let doc : DocRow := ⟨docId, tenant, title, content, doc_type⟩
  let db1 : DBState := { db with docs := db.docs ++ [doc] }
  let textChunks := chunk_text content
  match embed textChunks with
  | .error e => .error e
  | .ok embeddings =>
    let newRows := (textChunks.zip embeddings).enum.map (fun ic =>
      { document_id := docId
        tenant_id := tenant
        chunk_index := ic.1
        content := ic.2.1
        token_count := estTokens ic.2.1
        embedding := ic.2.2
        document_title_meta := title : DBChunkRow })
    let db2 : DBState := { db1 with chunks := db1.chunks ++ newRows }
    .ok (db2, { document_id := docId, title := title
                chunk_count := newRows.length
                total_tokens := (newRows.map (fun c => c.token_count)).sum })

/-- One ingestion request under `get_db`: on success the session is
committed, on an exception it is rolled back and the committed state is
unchanged. -/
def runIngestRequest (db : DBState)
    (embed : List (List Char) → Except EmbedFailure (List (List ℚ)))
    (docId : Nat) (tenant title content doc_type : List Char) :
    DBState × Except EmbedFailure IngestResult :=
  match ingest_document db embed docId tenant title content doc_type with
  | .ok (db2, res) => (db2, .ok res)
  | .error e => (db, .error e)

/-- The chunk rows of one document visible in a database state. -/
def chunksOfDoc (db : DBState) (docId : Nat) : List DBChunkRow :=
  db.chunks.filter (fun c => c.document_id == docId)

/-! ## Reconstruction view of the chunk sequence -/

/-- Undo the overlap of `chunk_text` at the paragraph level: keep the
first chunk whole and drop the first element — the prepended overlap
sentence — of every later chunk, then concatenate. -/
def dropOverlaps : List (List (List Char)) → List (List Char)
  | [] => []
  | c :: rest => c ++ (rest.map List.tail).flatten

/-- A paragraph as produced by `paras`: non-empty with no trailing
whitespace (both guaranteed by `strip`). -/
def goodPara (p : List Char) : Prop := p ≠ [] ∧ isWS (p.getLastD ' ') = false

/-! # Theorems -/

/-- Membership in the retrieval result implies membership in the
tenant-and-threshold filter. -/
theorem mem_retrieve {rows : List ChunkRow} {tenant : List Char} {qvec : List ℚ}
    {c : ChunkRow} (hc : c ∈ retrieve rows tenant qvec) :
    c ∈ rows ∧ c.tenant_id = tenant ∧
      simAbove c.embedding qvec SIMILARITY_THRESHOLD = true := by
  unfold retrieve at hc
  have h1 := List.mem_of_mem_take hc
  rw [List.mem_mergeSort] at h1
  have h2 := List.mem_filter.mp h1
  have h3 := h2.2
  simp only [Bool.and_eq_true, beq_iff_eq] at h3
  exact ⟨h2.1, h3.1, h3.2⟩

/-- C2: for every corpus state, query vector and tenant id, the retrieval
step of `ask` returns only chunks whose tenant id equals the query's
tenant id — the SQL `WHERE dc.tenant_id = :tenant_id` filter runs before
ranking, so no chunk of a different tenant is ever returned. -/
theorem claim_C2 (rows : List ChunkRow) (tenant : List Char) (qvec : List ℚ)
    (c : ChunkRow) (hc : c ∈ retrieve rows tenant qvec) : c.tenant_id = tenant :=
  (mem_retrieve hc).2.1

/-- A one-row corpus whose single chunk passes the similarity filter. -/
theorem demo_filter :
    List.filter
      (fun c => c.tenant_id == "t".data &&
        simAbove c.embedding [1] SIMILARITY_THRESHOLD)
      [⟨1, "t".data, 7, "T".data, "x".data, [1]⟩]
      = [(⟨1, "t".data, 7, "T".data, "x".data, [1]⟩ : ChunkRow)] := by
  have hb : simAbove [(1:ℚ)] [(1:ℚ)] SIMILARITY_THRESHOLD = true := by
    unfold simAbove SIMILARITY_THRESHOLD
    norm_num [dot, normSq]
  simp [List.filter, hb]

/-- Retrieval on the one-row corpus returns its chunk. -/
theorem demo_retrieve :
    retrieve [⟨1, "t".data, 7, "T".data, "x".data, [1]⟩] "t".data [1]
      = [⟨1, "t".data, 7, "T".data, "x".data, [1]⟩] := by
  unfold retrieve
  rw [demo_filter, List.mergeSort_singleton]
  rfl

/-- Witness for C2 at a concrete one-chunk corpus. -/
theorem claim_C2_witness :
    (⟨1, "t".data, 7, "T".data, "x".data, [1]⟩ : ChunkRow) ∈
        retrieve [⟨1, "t".data, 7, "T".data, "x".data, [1]⟩] "t".data [1] ∧
      (⟨1, "t".data, 7, "T".data, "x".data, [1]⟩ : ChunkRow).tenant_id = "t".data :=
  ⟨by rw [demo_retrieve]; exact List.mem_singleton.mpr rfl,
   claim_C2 _ _ _ _ (by rw [demo_retrieve]; exact List.mem_singleton.mpr rfl)⟩

/-- C7: every call of `ask_question` creates exactly one audit record; on a cache hit the record carries `cached = true`; on the fresh path the status is `completed` or `refused`, a refused status stores a null answer, and every stored source excerpt is truncated to at most 300 characters. -/
theorem claim_C7 (rows : List ChunkRow) (tenant question : List Char)
    (cacheLookup : Option ResponseData) (qvec : List ℚ)
    (gen : List Char → List CtxChunk → LLMResult) :
    ((ask_question rows tenant question cacheLookup qvec gen).audit.length = 1) ∧
    (∀ a ∈ (ask_question rows tenant question cacheLookup qvec gen).audit,
      (cacheLookup.isSome → a.cached = true) ∧
      (cacheLookup = none →
        (a.status = "completed".data ∨ a.status = "refused".data) ∧
        (a.status = "refused".data → a.answer = none) ∧
        (∀ s ∈ a.sources, s.excerpt.length ≤ 300))) := by
  cases cacheLookup with
  | some cached =>
    refine ⟨rfl, ?_⟩
    intro a ha
    simp only [ask_question, List.mem_singleton] at ha
    subst ha
    exact ⟨fun _ => rfl, fun h => by simp at h⟩
  | none =>
    refine ⟨rfl, ?_⟩
    intro a ha
    simp only [ask_question, List.mem_singleton] at ha
    refine ⟨fun h => by simp at h, fun _ => ?_⟩
    subst ha
    by_cases hr : (gen question ((retrieve rows tenant qvec).map ChunkRow.toCtx)).refused
    · refine ⟨Or.inr (by simp [hr]), fun _ => by simp [hr], ?_⟩
      intro s hs
      simp only [List.mem_map] at hs
      obtain ⟨c, hc, rfl⟩ := hs
      simp [List.length_take]
    · refine ⟨Or.inl (by simp [hr]), fun h => ?_, ?_⟩
      · exfalso
        simp only [hr] at h
        revert h
        decide
      · intro s hs
        simp only [List.mem_map] at hs
        obtain ⟨c, hc, rfl⟩ := hs
        simp [List.length_take]

/-- Retrieval over an empty corpus returns no chunks. -/
theorem retrieve_nil (tenant : List Char) (qvec : List ℚ) :
    retrieve [] tenant qvec = [] := by
  simp [retrieve]

/-- The single audit row of a fresh `ask` against an empty corpus with the
stub provider: a refusal. -/
theorem ask_empty_eval :
    (ask_question [] "t".data "q".data none [] stubGenerate).audit =
      [{ tenant_id := "t".data, question := "q".data, answer := none, sources := [],
         status := "refused".data,
         refused_reason :=
           some "No relevant context found in the knowledge base to answer this question.".data,
         prompt_tokens := 0, completion_tokens := 0, total_tokens := 0,
         model_used := some STUB_MODEL, cached := false }] := by
  simp [ask_question, retrieve_nil, stubGenerate]

/-- Witness for C7: a fresh ask against an empty corpus with the stub provider. -/
theorem claim_C7_witness :
    (ask_question [] "t".data "q".data none [] stubGenerate).audit.length = 1 ∧
    ({ tenant_id := "t".data, question := "q".data, answer := none, sources := [],
       status := "refused".data,
       refused_reason :=
         some "No relevant context found in the knowledge base to answer this question.".data,
       prompt_tokens := 0, completion_tokens := 0, total_tokens := 0,
       model_used := some STUB_MODEL, cached := false } : AIRequestRow).answer = none :=
  ⟨(claim_C7 [] "t".data "q".data none [] stubGenerate).1,
   (((claim_C7 [] "t".data "q".data none [] stubGenerate).2 _
      (by rw [ask_empty_eval]; exact List.mem_singleton.mpr rfl)).2 rfl).2.1 rfl⟩


/-- C4: the cache-write step of `ask_question` stores a payload only when the result status is `completed`; when the result is refused the cache key space is left unchanged, so an identical follow-up ask still misses. -/
theorem claim_C4 (store : Store) (rows : List ChunkRow) (tenant question : List Char)
    (qvec : List ℚ) (gen : List Char → List CtxChunk → LLMResult) :
    ((askWithStore store rows tenant question qvec gen).1.cacheWrite.isSome →
      (askWithStore store rows tenant question qvec gen).1.response.status =
        "completed".data) ∧
    ((askWithStore store rows tenant question qvec gen).1.response.status =
        "refused".data →
      (askWithStore store rows tenant question qvec gen).2 = store) := by
  unfold askWithStore
  cases hcl : storeGet store (cacheKey tenant question) with
  | some cached =>
    refine ⟨fun h => ?_, fun h => ?_⟩
    · simp [ask_question] at h
    · simp [ask_question]
  | none =>
    by_cases hr : (gen question ((retrieve rows tenant qvec).map ChunkRow.toCtx)).refused
    · refine ⟨fun h => ?_, fun h => ?_⟩
      · simp +decide [ask_question, hr] at h
      · simp +decide [ask_question, hr]
    · refine ⟨fun h => ?_, fun h => ?_⟩
      · simp +decide [ask_question, hr]
      · simp +decide [ask_question, hr] at h

/-- Witness for C4: a refused ask leaves the empty cache empty. -/
theorem claim_C4_witness :
    (askWithStore [] [] "t".data "q".data [] stubGenerate).2 = ([] : Store) :=
  (claim_C4 [] [] "t".data "q".data [] stubGenerate).2
    (by simp [askWithStore, storeGet, ask_question, retrieve_nil, stubGenerate])

/-- C3: if `ingest_document` fails after the document row was added — the batched embedding call raising — the request transaction of `get_db` rolls back: the committed state is unchanged and no chunk row of the document becomes visible. -/
theorem claim_C3 (db : DBState)
    (embed : List (List Char) → Except EmbedFailure (List (List ℚ)))
    (docId : Nat) (tenant title content doc_type : List Char) (e : EmbedFailure)
    (h : (runIngestRequest db embed docId tenant title content doc_type).2 =
      .error e) :
    (runIngestRequest db embed docId tenant title content doc_type).1 = db ∧
    chunksOfDoc (runIngestRequest db embed docId tenant title content doc_type).1
      docId = chunksOfDoc db docId := by
  cases hemb : embed (chunk_text content) with
  | ok embs =>
    exfalso
    simp [runIngestRequest, ingest_document, hemb] at h
  | error e2 =>
    have h1 : (runIngestRequest db embed docId tenant title content doc_type).1 = db := by
      simp [runIngestRequest, ingest_document, hemb]
    exact ⟨h1, by rw [h1]⟩

/-- Witness for C3 with an embedding provider that always raises. -/
theorem claim_C3_witness :
    (runIngestRequest ⟨[], []⟩ (fun _ => .error ⟨"boom".data⟩) 1 "t".data
        "Title".data "body text".data "markdown".data).1 = ⟨[], []⟩ ∧
    chunksOfDoc (runIngestRequest ⟨[], []⟩ (fun _ => .error ⟨"boom".data⟩) 1
        "t".data "Title".data "body text".data "markdown".data).1 1 =
      chunksOfDoc ⟨[], []⟩ 1 :=
  claim_C3 ⟨[], []⟩ (fun _ => .error ⟨"boom".data⟩) 1 "t".data "Title".data
    "body text".data "markdown".data ⟨"boom".data⟩ rfl

/-- Two colon-free lists followed by a colon: if one (with anything after
the colon) is a prefix of the other, the lists are equal. -/
theorem colon_pre_eq : ∀ (t t2 : List Char), ':' ∉ t → ':' ∉ t2 →
    ∀ r s : List Char, (t ++ ':' :: r) <+: (t2 ++ ':' :: s) → t = t2 := by
  intro t
  induction t with
  | nil =>
    intro t2 h1 h2 r s hp
    cases t2 with
    | nil => rfl
    | cons c2 u2 =>
      exfalso
      simp only [List.nil_append, List.cons_append, List.cons_prefix_cons] at hp
      exact h2 (hp.1 ▸ List.mem_cons_self _ _)
  | cons c u ih =>
    intro t2 h1 h2 r s hp
    cases t2 with
    | nil =>
      exfalso
      simp only [List.cons_append, List.nil_append, List.cons_prefix_cons] at hp
      exact h1 (hp.1 ▸ List.mem_cons_self _ _)
    | cons c2 u2 =>
      simp only [List.cons_append, List.cons_prefix_cons] at hp
      rw [hp.1,
        ih u2 (fun hm => h1 (List.mem_cons_of_mem _ hm))
          (fun hm => h2 (List.mem_cons_of_mem _ hm)) r s hp.2]

/-- C10: `invalidate_tenant t` deletes only keys carrying the `ka:query:t:` pattern of tenant `t`; every cached answer of a different tenant (tenant ids are colon-free UUID strings) survives unchanged. -/
theorem claim_C10 (t t2 q : List Char) (v : ResponseData) (store : Store)
    (hne : t ≠ t2) (h1 : ':' ∉ t) (h2 : ':' ∉ t2)
    (hmem : (cacheKey t2 q, v) ∈ store) :
    (cacheKey t2 q, v) ∈ invalidate_tenant t store ∧
    (∀ kv ∈ store, kv ∉ invalidate_tenant t store →
      ("ka:query:".data ++ t ++ [':']) <+: kv.1) := by
  constructor
  · rw [invalidate_tenant, List.mem_filter]
    refine ⟨hmem, ?_⟩
    rw [Bool.not_eq_eq_eq_not, Bool.not_true, ← Bool.not_eq_true,
      List.isPrefixOf_iff_prefix]
    intro hp
    rw [cacheKey] at hp
    have hp2 : (t ++ [':']) <+: (t2 ++ ':' :: qHash16 q) := by
      have : ("ka:query:".data ++ (t ++ [':'])) <+:
          ("ka:query:".data ++ (t2 ++ ':' :: qHash16 q)) := by
        simpa [List.append_assoc] using hp
      exact (List.prefix_append_right_inj _).mp this
    exact hne (colon_pre_eq t t2 h1 h2 [] (qHash16 q)
      (by simpa using hp2))
  · intro kv hkv hnot
    rw [invalidate_tenant, List.mem_filter] at hnot
    push_neg at hnot
    have := hnot hkv
    simp only [ne_eq, Bool.not_eq_true, Bool.not_eq_false',
      List.isPrefixOf_iff_prefix] at this
    exact this

/-- Witness for C10: tenant b survives the invalidation of tenant a. -/
theorem claim_C10_witness :
    (cacheKey "b".data "x".data,
        (⟨"x".data, "ans".data, [], "completed".data, none, false, none,
          ⟨0, 0, 0⟩⟩ : ResponseData)) ∈
      invalidate_tenant "a".data
        [(cacheKey "b".data "x".data,
          (⟨"x".data, "ans".data, [], "completed".data, none, false, none,
            ⟨0, 0, 0⟩⟩ : ResponseData))] :=
  (claim_C10 "a".data "b".data "x".data
    ⟨"x".data, "ans".data, [], "completed".data, none, false, none, ⟨0, 0, 0⟩⟩
    [(cacheKey "b".data "x".data,
      ⟨"x".data, "ans".data, [], "completed".data, none, false, none, ⟨0, 0, 0⟩⟩)]
    (by decide) (by decide) (by decide) (List.mem_singleton.mpr rfl)).1


/-- C1 (amended): the stub provider refuses on an empty context list with a
non-empty reason and an empty answer, and a fresh `ask` whose retrieval
comes back empty therefore ends `refused` with a non-empty reason whenever
the stub provider is configured; the OpenAI-backed provider, by contrast,
forwards whatever refusal flag the external response carries (see the
counterexample), so the guarantee is provider-specific, not universal. -/
theorem claim_C1 (question tenant : List Char) (rows : List ChunkRow)
    (qvec : List ℚ) (hretr : retrieve rows tenant qvec = []) :
    (stubGenerate question []).refused = true ∧
    (stubGenerate question []).answer = [] ∧
    (∃ r, (stubGenerate question []).refused_reason = some r ∧ r ≠ []) ∧
    (ask_question rows tenant question none qvec stubGenerate).response.status =
      "refused".data ∧
    (∃ r, (ask_question rows tenant question none qvec
      stubGenerate).response.refused_reason = some r ∧ r ≠ []) := by
  have hstub : stubGenerate question [] =
      { answer := []
        refused := true
        refused_reason :=
          some "No relevant context found in the knowledge base to answer this question.".data
        prompt_tokens := 0, completion_tokens := 0, total_tokens := 0
        model := STUB_MODEL } := by
    simp [stubGenerate]
  refine ⟨by rw [hstub], by rw [hstub],
    ⟨"No relevant context found in the knowledge base to answer this question.".data,
      by rw [hstub], by decide⟩, ?_, ?_⟩
  · simp [ask_question, hretr, hstub]
  · exact ⟨"No relevant context found in the knowledge base to answer this question.".data,
      by simp [ask_question, hretr, hstub], by decide⟩

/-- Witness for C1 on the empty corpus. -/
theorem claim_C1_witness :
    (ask_question [] "t".data "q".data none [] stubGenerate).response.status =
      "refused".data :=
  (claim_C1 "q".data "t".data [] [] (retrieve_nil "t".data [])).2.2.2.1

/-- C1 counterexample: the claim quantifies over every generation provider
implementation, but `OpenAILLMProvider.generate` never checks the context
list: with an empty context and an external response whose JSON carries no
`refused` key (here `answer = "hello"`), it returns `refused = false` with
a non-empty answer — not the demanded refusal. -/
theorem claim_C1_counterexample :
    (openaiGenerate "gpt-4o-mini".data "q".data []
        (some "hello".data) none (some ⟨some "hello".data, none, none⟩)).refused =
      false ∧
    (openaiGenerate "gpt-4o-mini".data "q".data []
        (some "hello".data) none (some ⟨some "hello".data, none, none⟩)).answer ≠
      [] := by
  constructor
  · rfl
  · decide

/-- C6 (amended): the cache key is a pure function of the tenant id and
the normalised question — questions that agree after `strip().lower()`
(i.e. differ only in leading/trailing whitespace or in case) yield the
same key, and distinct tenants with an identical question never collide.
Questions differing in internal whitespace are, however, normalised to
different strings and hash to different keys (see the counterexample). -/
theorem claim_C6 (t t2 q q2 : List Char) :
    (normalizeQ q = normalizeQ q2 → cacheKey t q = cacheKey t q2) ∧
    (t ≠ t2 → cacheKey t q ≠ cacheKey t2 q) := by
  constructor
  · intro h
    unfold cacheKey qHash16
    rw [h]
  · intro hne heq
    unfold cacheKey at heq
    rw [List.append_assoc, List.append_assoc] at heq
    exact hne (List.append_cancel_right (List.append_cancel_left heq))

/-- Witness for C6: case and outer whitespace do not change the key; the
tenant does. -/
theorem claim_C6_witness :
    cacheKey "a".data "  A B ".data = cacheKey "a".data "a b".data ∧
    cacheKey "a".data "a b".data ≠ cacheKey "b".data "a b".data :=
  ⟨(claim_C6 "a".data "b".data "  A B ".data "a b".data).1 (by decide),
   (claim_C6 "a".data "b".data "a b".data "a b".data).2 (by decide)⟩

set_option maxRecDepth 400000 in
/-- C6 counterexample: `a b` and `a  b` differ only in whitespace (their
non-whitespace characters agree), yet `strip().lower()` does not touch
internal whitespace, so the two questions hash to different 16-character
digest prefixes and the derived keys differ — refuting the claim that any
two questions differing only in whitespace share a key. -/
theorem claim_C6_counterexample :
    List.filter (fun c => !isWS c) "a b".data =
      List.filter (fun c => !isWS c) "a  b".data ∧
    cacheKey "t".data "a b".data ≠ cacheKey "t".data "a  b".data := by
  constructor
  · decide
  · decide


theorem dot_self_nonneg : ∀ u : List ℚ, 0 ≤ dot u u
  | [] => le_refl 0
  | a :: u => by
    have h := dot_self_nonneg u
    simp only [dot]
    nlinarith [sq_nonneg a]

theorem normSq_nonneg (u : List ℚ) : 0 ≤ normSq u := dot_self_nonneg u

theorem dot_eq_zero_of_normSq_nonpos : ∀ (u q : List ℚ), normSq u ≤ 0 → dot u q = 0
  | [], _, _ => rfl
  | _ :: _, [], _ => rfl
  | a :: u, b :: q, h => by
    simp only [normSq, dot] at h
    have hu : 0 ≤ dot u u := dot_self_nonneg u
    have ha : a = 0 := by nlinarith [sq_nonneg a]
    have h2 : normSq u ≤ 0 := by simp only [normSq]; nlinarith [sq_nonneg a]
    simp only [dot, ha, zero_mul, zero_add]
    exact dot_eq_zero_of_normSq_nonpos u q h2

theorem normSq_pos_of_dot_ne {u q : List ℚ} (h : dot u q ≠ 0) : 0 < normSq u := by
  rcases lt_or_le 0 (normSq u) with h1 | h1
  · exact h1
  · exact absurd (dot_eq_zero_of_normSq_nonpos u q h1) h

theorem simGEb_total (u w q : List ℚ) : simGEb u w q || simGEb w u q := by
  unfold simGEb
  split_ifs <;> simp_all <;> exact le_total _ _

theorem simGEb_trans (u w x q : List ℚ)
    (hA : simGEb u w q) (hB : simGEb w x q) : simGEb u x q := by
  unfold simGEb at hA hB ⊢
  split_ifs at hA hB ⊢ <;> simp_all
  · -- all three dot products positive
    rename_i h1 h2 h3
    have hdw2 : (0 : ℚ) < dot w q ^ 2 := pow_pos h3 2
    have k1 := mul_le_mul_of_nonneg_left hA (sq_nonneg (dot x q))
    have k2 := mul_le_mul_of_nonneg_left hB (sq_nonneg (dot u q))
    have key : dot w q ^ 2 * (dot x q ^ 2 * normSq u) ≤
        dot w q ^ 2 * (dot u q ^ 2 * normSq x) := by nlinarith
    exact le_of_mul_le_mul_left key hdw2
  · -- all three dot products negative
    rename_i hdu0 hdx0 hdu hdx hdw0 hdw
    have hNw : 0 < normSq w := normSq_pos_of_dot_ne hdw.ne
    have k1 := mul_le_mul_of_nonneg_left hA (normSq_nonneg x)
    have k2 := mul_le_mul_of_nonneg_left hB (normSq_nonneg u)
    have key : normSq w * (dot u q ^ 2 * normSq x) ≤
        normSq w * (dot x q ^ 2 * normSq u) := by nlinarith
    exact le_of_mul_le_mul_left key hNw

/-- C5 (amended): retrieval returns at most `TOP_K = 5` chunks, each with
cosine similarity strictly above the `0.30` threshold, ordered by
descending similarity, and returns the empty list — not an error — when no
chunk passes the filter.  The SQL orders only by the distance key, so
chunks of exactly equal similarity appear in table scan order; no chunk-id
tie-break is applied (see the counterexample). -/
theorem claim_C5 (rows : List ChunkRow) (tenant : List Char) (qvec : List ℚ) :
    (retrieve rows tenant qvec).length ≤ TOP_K ∧
    (∀ c ∈ retrieve rows tenant qvec,
      simAbove c.embedding qvec SIMILARITY_THRESHOLD = true) ∧
    (retrieve rows tenant qvec).Pairwise
      (fun a b => simGEb a.embedding b.embedding qvec = true) ∧
    (rows.filter (fun c => c.tenant_id == tenant &&
        simAbove c.embedding qvec SIMILARITY_THRESHOLD) = [] →
      retrieve rows tenant qvec = []) := by
  refine ⟨?_, fun c hc => (mem_retrieve hc).2.2, ?_, ?_⟩
  · unfold retrieve
    exact List.length_take_le _ _
  · have hs := @List.sorted_mergeSort ChunkRow
      (fun a b : ChunkRow => simGEb a.embedding b.embedding qvec)
      (fun a b c hab hbc => simGEb_trans _ _ _ _ hab hbc)
      (fun a b => simGEb_total _ _ _)
      (rows.filter (fun c => c.tenant_id == tenant &&
        simAbove c.embedding qvec SIMILARITY_THRESHOLD))
    unfold retrieve
    exact hs.sublist (List.take_sublist _ _)
  · intro h
    unfold retrieve
    rw [h]
    simp

/-- Witness for C5 on the empty corpus: no chunk passes, empty result. -/
theorem claim_C5_witness : retrieve [] "t".data [] = [] :=
  (claim_C5 [] "t".data []).2.2.2 rfl

/-- Equal unit vectors pass the `0.30` threshold. -/
theorem simAbove_one : simAbove [(1:ℚ)] [(1:ℚ)] SIMILARITY_THRESHOLD = true := by
  unfold simAbove SIMILARITY_THRESHOLD
  norm_num [dot, normSq]

/-- The ranking relation holds between rows of identical embeddings. -/
theorem simGEb_one : simGEb [(1:ℚ)] [(1:ℚ)] [(1:ℚ)] = true := by
  unfold simGEb
  norm_num [dot, normSq]

/-- C5 counterexample: two chunks of the same tenant with identical
embeddings — hence exactly equal similarity to the query — stored in scan
order `chunk_id 2` before `chunk_id 1` are returned in that same scan
order, not re-ordered by chunk id: the claimed stable-by-chunk-id
tie-break does not exist in the SQL. -/
theorem claim_C5_counterexample :
    retrieve [⟨2, "t".data, 7, "T".data, "y".data, [1]⟩,
        ⟨1, "t".data, 7, "T".data, "x".data, [1]⟩] "t".data [1] =
      [⟨2, "t".data, 7, "T".data, "y".data, [1]⟩,
       ⟨1, "t".data, 7, "T".data, "x".data, [1]⟩] ∧
    (⟨2, "t".data, 7, "T".data, "y".data, [1]⟩ : ChunkRow).embedding =
      (⟨1, "t".data, 7, "T".data, "x".data, [1]⟩ : ChunkRow).embedding ∧
    retrieve [⟨2, "t".data, 7, "T".data, "y".data, [1]⟩,
        ⟨1, "t".data, 7, "T".data, "x".data, [1]⟩] "t".data [1] ≠
      [⟨1, "t".data, 7, "T".data, "x".data, [1]⟩,
       ⟨2, "t".data, 7, "T".data, "y".data, [1]⟩] := by
  have hmain : retrieve [⟨2, "t".data, 7, "T".data, "y".data, [1]⟩,
      ⟨1, "t".data, 7, "T".data, "x".data, [1]⟩] "t".data [1] =
      [⟨2, "t".data, 7, "T".data, "y".data, [1]⟩,
       ⟨1, "t".data, 7, "T".data, "x".data, [1]⟩] := by
    unfold retrieve
    have hf : List.filter (fun c =>
        c.tenant_id == "t".data &&
          simAbove c.embedding [1] SIMILARITY_THRESHOLD)
        [(⟨2, "t".data, 7, "T".data, "y".data, [1]⟩ : ChunkRow),
         ⟨1, "t".data, 7, "T".data, "x".data, [1]⟩] =
        [⟨2, "t".data, 7, "T".data, "y".data, [1]⟩,
         ⟨1, "t".data, 7, "T".data, "x".data, [1]⟩] := by
      simp [List.filter, simAbove_one]
    rw [hf, List.mergeSort_of_sorted (List.pairwise_pair.mpr (by exact simGEb_one))]
    rfl
  refine ⟨hmain, rfl, fun h => ?_⟩
  rw [hmain] at h
  injection h with h1 _
  exact absurd (congrArg ChunkRow.chunk_id h1) (by decide)


/-- Every chunk the accumulation loop emits is a non-empty list of
non-empty pieces (pieces are the paragraphs, plus a non-empty overlap
sentence where one is carried). -/
theorem chunkLoop_mem (mt : Nat) : ∀ (rem cur : List (List Char)) (tok : Nat),
    (∀ s ∈ cur, s ≠ []) → (∀ p ∈ rem, p ≠ []) →
    ∀ c ∈ chunkLoop mt rem cur tok, c ≠ [] ∧ ∀ s ∈ c, s ≠ [] := by
  intro rem
  induction rem with
  | nil =>
    intro cur tok hcur _ c hc
    by_cases h : cur = []
    · simp [chunkLoop, h] at hc
    · simp only [chunkLoop, if_neg h, List.mem_singleton] at hc
      subst hc
      exact ⟨h, hcur⟩
  | cons p rest ih =>
    intro cur tok hcur hrem c hc
    rw [chunkLoop] at hc
    by_cases hover : tok + estTokens p > mt ∧ cur ≠ []
    · rw [if_pos hover] at hc
      rcases List.mem_cons.mp hc with rfl | hc2
      · exact ⟨hover.2, hcur⟩
      · refine ih _ _ ?_ (fun x hx => hrem x (List.mem_cons_of_mem _ hx)) c hc2
        by_cases hov : lastSentence (cur.getLastD []) ≠ []
        · rw [if_pos hov]
          intro s hs
          rcases List.mem_cons.mp hs with rfl | hs2
          · exact hov
          · rw [List.mem_singleton] at hs2
            subst hs2
            exact hrem _ (List.mem_cons_self _ _)
        · rw [if_neg hov]
          intro s hs
          rw [List.mem_singleton] at hs
          subst hs
          exact hrem _ (List.mem_cons_self _ _)
    · rw [if_neg hover] at hc
      refine ih _ _ ?_ (fun x hx => hrem x (List.mem_cons_of_mem _ hx)) c hc
      intro s hs
      rcases List.mem_append.mp hs with hs1 | hs2
      · exact hcur s hs1
      · rw [List.mem_singleton] at hs2
        subst hs2
        exact hrem _ (List.mem_cons_self _ _)

/-- A `"\n\n"` join of pieces starting with a non-empty piece is non-empty. -/
theorem intercalate_ne_nil (x : List Char) (cs : List (List Char)) (hx : x ≠ []) :
    List.intercalate sepPP (x :: cs) ≠ [] := by
  cases cs with
  | nil =>
    simp only [List.intercalate, List.intersperse_single, List.flatten,
      List.append_nil]
    exact hx
  | cons y cs =>
    simp only [List.intercalate, List.intersperse_cons₂, List.flatten]
    intro h
    rw [List.append_eq_nil] at h
    exact hx h.1

/-- Every paragraph `paras` produces is non-empty. -/
theorem paras_ne_nil {text : List Char} : ∀ p ∈ paras text, p ≠ [] := by
  intro p hp
  have := (List.mem_filter.mp hp).2
  simpa using this

/-- C9: `chunk_text` never produces an empty chunk; a whitespace-only
input produces no chunks at all; and a single paragraph — however large
its token estimate — becomes exactly one chunk, unsplit. -/
theorem claim_C9 (text : List Char) (mt : Nat) :
    (∀ ch ∈ chunk_text text mt, ch ≠ []) ∧
    (strip text = [] → chunk_text text mt = []) ∧
    (∀ p, paras text = [p] → chunk_text text mt = [p]) := by
  refine ⟨?_, ?_, ?_⟩
  · intro ch hch
    unfold chunk_text chunkParas at hch
    rw [List.mem_map] at hch
    obtain ⟨c, hc, rfl⟩ := hch
    have hmem := chunkLoop_mem mt (paras text) [] 0 (by simp) paras_ne_nil c hc
    obtain ⟨hne, hall⟩ := hmem
    cases c with
    | nil => exact absurd rfl hne
    | cons x cs => exact intercalate_ne_nil x cs (hall x (List.mem_cons_self _ _))
  · intro hstrip
    unfold chunk_text chunkParas paras
    rw [hstrip]
    rfl
  · intro p hp
    unfold chunk_text chunkParas
    rw [hp, chunkLoop, if_neg (by simp), List.nil_append, chunkLoop,
      if_neg (by simp : ¬ ([p] : List (List Char)) = [])]
    simp [List.intercalate]

/-- Witness for C9: a whitespace-only text chunks to nothing; a one-
paragraph text (whatever its size relative to the budget) is one chunk. -/
theorem claim_C9_witness :
    chunk_text "   ".data MAX_CHUNK_TOKENS = [] ∧
    chunk_text "hello world".data MAX_CHUNK_TOKENS = ["hello world".data] :=
  ⟨(claim_C9 "   ".data MAX_CHUNK_TOKENS).2.1 (by decide),
   (claim_C9 "hello world".data MAX_CHUNK_TOKENS).2.2 "hello world".data (by decide)⟩


/-- The sentence split never returns the empty list of pieces. -/
theorem sentSplitAux_ne_nil : ∀ (l : List Char) (skip : Bool) (acc : List Char),
    sentSplitAux skip acc l ≠ [] := by
  intro l
  induction l with
  | nil => intro skip acc; simp [sentSplitAux]
  | cons c rest ih =>
    intro skip acc
    simp only [sentSplitAux]
    split
    · exact ih true acc
    · split
      · simp
      · exact ih false (c :: acc)

/-- The last piece of the sentence split is non-empty, provided the input
has no trailing whitespace (and is non-empty, or the accumulator is). -/
theorem sentSplitAux_getLastD : ∀ (l : List Char) (skip : Bool) (acc d : List Char),
    (l = [] → acc ≠ []) → (l ≠ [] → isWS (l.getLastD ' ') = false) →
    (sentSplitAux skip acc l).getLastD d ≠ [] := by
  intro l
  induction l with
  | nil =>
    intro skip acc d h1 _
    simp only [sentSplitAux, List.getLastD]
    simpa using h1 rfl
  | cons c rest ih =>
    intro skip acc d h1 h2
    have hlast : rest ≠ [] → isWS (rest.getLastD ' ') = false := by
      intro hr
      have := h2 (by simp)
      rw [List.getLastD_cons] at this
      cases rest with
      | nil => exact absurd rfl hr
      | cons a t => rwa [List.getLastD_cons] at this ⊢
    have hrestne : isWS c = true → rest ≠ [] := by
      intro hwc hr
      subst hr
      have := h2 (by simp)
      rw [List.getLastD_cons] at this
      simp only [List.getLastD] at this
      rw [hwc] at this
      cases this
    clear h1
    simp only [sentSplitAux]
    by_cases hskip : (skip : Prop) ∧ isWS c
    · rw [if_pos hskip]
      exact ih true acc d (fun h => absurd h (hrestne hskip.2)) hlast
    · rw [if_neg hskip]
      by_cases hclose :
          ((match acc with | a :: _ => isSentEnd a | [] => false) && isWS c) = true
      · rw [if_pos hclose]
        have hwc : isWS c = true := by
          simp only [Bool.and_eq_true] at hclose
          exact hclose.2
        cases hR : sentSplitAux true [] rest with
        | nil => exact absurd hR (sentSplitAux_ne_nil rest true [])
        | cons r rs =>
          rw [List.getLastD_cons, ← hR]
          exact ih true [] acc.reverse (fun h => absurd h (hrestne hwc)) hlast
      · rw [if_neg hclose]
        exact ih false (c :: acc) d (fun _ => by simp) hlast

/-- The overlap carried between chunks — the last sentence of a stripped,
non-empty paragraph — is never empty. -/
theorem lastSentence_ne_nil {s : List Char} (h : goodPara s) :
    lastSentence s ≠ [] := by
  unfold lastSentence
  exact sentSplitAux_getLastD s false [] [] (fun hs => absurd hs h.1)
    (fun _ => h.2)

/-- Dropping the head of `cur ++ [p]` for non-empty `cur`. -/
theorem tail_append_single {cur : List (List Char)} (h : cur ≠ [])
    (p : List Char) : (cur ++ [p]).tail = cur.tail ++ [p] := by
  cases cur with
  | nil => exact absurd rfl h
  | cons a t => simp

/-- The freshly seeded chunk `[overlap, p]` ends in the paragraph `p`. -/
theorem getLastD_pair (ov p : List Char) :
    ([ov, p] : List (List Char)).getLastD [] = p := by
  rw [List.getLastD_cons, List.getLastD_cons]
  rfl

/-- The concatenated tails of the chunks the loop emits are exactly the
tail of the running chunk followed by the remaining paragraphs: each
pending paragraph ends up exactly once past the head element of a chunk. -/
theorem chunkLoop_tails (mt : Nat) : ∀ (rem cur : List (List Char)) (tok : Nat),
    cur ≠ [] → goodPara (cur.getLastD []) → (∀ p ∈ rem, goodPara p) →
    ((chunkLoop mt rem cur tok).map List.tail).flatten = cur.tail ++ rem := by
  intro rem
  induction rem with
  | nil =>
    intro cur tok hcur _ _
    simp [chunkLoop, if_neg hcur]
  | cons p rest ih =>
    intro cur tok hcur hlast hrem
    have hgp : goodPara p := hrem p (List.mem_cons_self _ _)
    have hrem2 : ∀ x ∈ rest, goodPara x :=
      fun x hx => hrem x (List.mem_cons_of_mem _ hx)
    rw [chunkLoop]
    by_cases hover : tok + estTokens p > mt ∧ cur ≠ []
    · rw [if_pos hover, if_pos (lastSentence_ne_nil hlast)]
      have hrec := ih [lastSentence (cur.getLastD []), p]
        (estTokens (List.intercalate sepPP [lastSentence (cur.getLastD []), p]))
        (by simp) (by rw [getLastD_pair]; exact hgp) hrem2
      simp only [List.map_cons, List.flatten_cons, hrec]
      simp
    · rw [if_neg hover]
      have hrec := ih (cur ++ [p]) (tok + estTokens p)
        (by simp) (by rw [List.getLastD_concat]; exact hgp) hrem2
      rw [hrec, tail_append_single hcur]
      simp

/-- Reconstruction at the loop level: the head chunk whole plus the tails
of all later chunks is the running chunk followed by the remaining
paragraphs. -/
theorem chunkLoop_headTails (mt : Nat) : ∀ (rem cur : List (List Char)) (tok : Nat),
    cur ≠ [] → goodPara (cur.getLastD []) → (∀ p ∈ rem, goodPara p) →
    dropOverlaps (chunkLoop mt rem cur tok) = cur ++ rem := by
  intro rem
  induction rem with
  | nil =>
    intro cur tok hcur _ _
    simp [chunkLoop, if_neg hcur, dropOverlaps]
  | cons p rest ih =>
    intro cur tok hcur hlast hrem
    have hgp : goodPara p := hrem p (List.mem_cons_self _ _)
    have hrem2 : ∀ x ∈ rest, goodPara x :=
      fun x hx => hrem x (List.mem_cons_of_mem _ hx)
    rw [chunkLoop]
    by_cases hover : tok + estTokens p > mt ∧ cur ≠ []
    · rw [if_pos hover, if_pos (lastSentence_ne_nil hlast)]
      have hrec := chunkLoop_tails mt rest
        [lastSentence (cur.getLastD []), p]
        (estTokens (List.intercalate sepPP [lastSentence (cur.getLastD []), p]))
        (by simp) (by rw [getLastD_pair]; exact hgp) hrem2
      rw [dropOverlaps, hrec]
      simp
    · rw [if_neg hover]
      have hrec := ih (cur ++ [p]) (tok + estTokens p)
        (by simp) (by rw [List.getLastD_concat]; exact hgp) hrem2
      rw [hrec]
      simp

/-- The head of what `dropWhile` keeps does not satisfy the predicate. -/
theorem headD_dropWhile_not {α : Type} (p : α → Bool) (l : List α) (d : α)
    (h : l.dropWhile p ≠ []) : p ((l.dropWhile p).headD d) = false := by
  have hw := List.head?_dropWhile_not p l
  cases hh : (l.dropWhile p).head? with
  | none => exact absurd (List.head?_eq_none_iff.mp hh) h
  | some x =>
    rw [hh] at hw
    rwa [List.headD_eq_head?_getD, hh]

/-- A non-empty `strip` result has no trailing whitespace. -/
theorem strip_getLastD (s : List Char) (h : strip s ≠ []) :
    isWS ((strip s).getLastD ' ') = false := by
  unfold strip at h ⊢
  rw [List.getLastD_eq_getLast?, List.getLast?_reverse, ← List.headD_eq_head?_getD]
  apply headD_dropWhile_not
  intro hz
  rw [hz] at h
  exact h rfl

/-- Every paragraph `paras` produces is non-empty with no trailing
whitespace. -/
theorem paras_good {text : List Char} : ∀ p ∈ paras text, goodPara p := by
  intro p hp
  unfold paras at hp
  have h2 := List.mem_filter.mp hp
  have hne : p ≠ [] := by simpa using h2.2
  obtain ⟨x, _, rfl⟩ := List.mem_map.mp h2.1
  exact ⟨hne, strip_getLastD x hne⟩

/-- C8: concatenating the chunks produced by `chunk_text` — the first
chunk whole, every later chunk minus the one overlap sentence prepended
to it — reconstructs the original paragraph sequence in order.  The
statement is at the paragraph-list level of the source's `current` list:
`chunk_text text mt` is by definition
`(chunkParas mt (paras text)).map (List.intercalate sepPP)`, so each
chunk is the `"\n\n"` join of the corresponding inner list. -/
theorem claim_C8 (text : List Char) (mt : Nat) :
    dropOverlaps (chunkParas mt (paras text)) = paras text := by
  unfold chunkParas
  cases hps : paras text with
  | nil => rfl
  | cons p rest =>
    have hgood : ∀ x ∈ p :: rest, goodPara x := by
      rw [← hps]; exact paras_good
    rw [chunkLoop, if_neg (by simp), List.nil_append]
    rw [chunkLoop_headTails mt rest [p] (0 + estTokens p) (by simp)
      (by rw [List.getLastD_cons]; exact hgood p (List.mem_cons_self _ _))
      (fun x hx => hgood x (List.mem_cons_of_mem _ hx))]
    rfl


/-- Dot products are symmetric. -/
theorem dot_comm : ∀ u v : List ℚ, dot u v = dot v u
  | [], [] => rfl
  | [], _ :: _ => rfl
  | _ :: _, [] => rfl
  | a :: u, b :: v => by
    simp only [dot, dot_comm u v]
    ring

/-- The real cosine similarity that pgvector's `<=>` operator is defined
from: `dot u q / (‖u‖ ‖q‖)`, with the degenerate zero-vector case mapping
to `0` through ℝ's division-by-zero convention (pgvector's `NaN` compares
false against every threshold, matching `simAbove` rejecting it). -/
noncomputable def rsim (u q : List ℚ) : ℝ :=
  (dot u q : ℝ) / (Real.sqrt ((normSq u : ℚ) : ℝ) * Real.sqrt ((normSq q : ℚ) : ℝ))

/-- `simAbove` decides exactly the real threshold comparison
`cos u q > t` for non-negative thresholds. -/
theorem simAbove_iff_real (u q : List ℚ) (t : ℚ) (ht : 0 ≤ t) :
    simAbove u q t = true ↔ (t : ℝ) < rsim u q := by
  unfold simAbove rsim
  by_cases hd : 0 < dot u q
  · have hNu : 0 < normSq u := normSq_pos_of_dot_ne (ne_of_gt hd)
    have hNq : 0 < normSq q := by
      rw [dot_comm] at hd
      exact normSq_pos_of_dot_ne (ne_of_gt hd)
    have hNuR : (0:ℝ) < ((normSq u : ℚ) : ℝ) := by exact_mod_cast hNu
    have hNqR : (0:ℝ) < ((normSq q : ℚ) : ℝ) := by exact_mod_cast hNq
    have hsu : (0:ℝ) < Real.sqrt ((normSq u : ℚ) : ℝ) := Real.sqrt_pos.mpr hNuR
    have hsq : (0:ℝ) < Real.sqrt ((normSq q : ℚ) : ℝ) := Real.sqrt_pos.mpr hNqR
    have hD := mul_pos hsu hsq
    have hdR : (0:ℝ) < ((dot u q : ℚ) : ℝ) := by exact_mod_cast hd
    have htR : (0:ℝ) ≤ (t : ℝ) := by exact_mod_cast ht
    have hDD : (Real.sqrt ((normSq u : ℚ) : ℝ) * Real.sqrt ((normSq q : ℚ) : ℝ)) ^ 2 =
        ((normSq u : ℚ) : ℝ) * ((normSq q : ℚ) : ℝ) := by
      rw [mul_pow, Real.sq_sqrt hNuR.le, Real.sq_sqrt hNqR.le]
    rw [lt_div_iff₀ hD,
      ← pow_lt_pow_iff_left₀ (mul_nonneg htR hD.le) hdR.le two_ne_zero,
      mul_pow, hDD]
    simp only [Bool.and_eq_true, decide_eq_true_eq, hd, true_and]
    constructor
    · intro hh
      exact_mod_cast hh
    · intro hh
      exact_mod_cast hh
  · constructor
    · intro h
      simp only [Bool.and_eq_true, decide_eq_true_eq] at h
      exact absurd h.1 hd
    · intro h
      exfalso
      have hdle : ((dot u q : ℚ) : ℝ) ≤ 0 := by
        push_neg at hd
        exact_mod_cast hd
      have hDnn : (0:ℝ) ≤ Real.sqrt ((normSq u : ℚ) : ℝ) * Real.sqrt ((normSq q : ℚ) : ℝ) :=
        mul_nonneg (Real.sqrt_nonneg _) (Real.sqrt_nonneg _)
      have hneg := div_nonpos_of_nonpos_of_nonneg hdle hDnn
      have ht' : (0:ℝ) ≤ (t : ℝ) := by exact_mod_cast ht
      linarith

/-- Cancelling a positive right factor in a rational inequality of
products. -/
theorem mul_cancel_right_iff {a b c : ℚ} (hc : 0 < c) :
    a * c ≤ b * c ↔ a ≤ b := by
  constructor
  · exact fun h => le_of_mul_le_mul_right h hc
  · exact fun h => mul_le_mul_of_nonneg_right h hc.le

/-- `simGEb` decides exactly the real ranking comparison
`cos w q ≤ cos u q` that `ORDER BY dc.embedding <=> :query_vec` sorts by
(ascending cosine distance is descending cosine similarity). -/
theorem simGEb_iff_real (u w q : List ℚ) :
    simGEb u w q = true ↔ rsim w q ≤ rsim u q := by
  unfold simGEb rsim
  have hexp : ∀ (d a b : ℝ), 0 ≤ a → 0 ≤ b →
      (d * (Real.sqrt a * Real.sqrt b)) ^ 2 = d ^ 2 * (a * b) := by
    intro d a b ha hb
    rw [mul_pow, mul_pow, Real.sq_sqrt ha, Real.sq_sqrt hb]
  rcases lt_trichotomy 0 (dot u q) with hdu | hdu | hdu <;>
    rcases lt_trichotomy 0 (dot w q) with hdw | hdw | hdw
  · -- both positive
    have hNu : 0 < normSq u := normSq_pos_of_dot_ne (ne_of_gt hdu)
    have hNw : 0 < normSq w := normSq_pos_of_dot_ne (ne_of_gt hdw)
    have hNq : 0 < normSq q := by
      rw [dot_comm] at hdu
      exact normSq_pos_of_dot_ne (ne_of_gt hdu)
    have hNuR : (0:ℝ) < ((normSq u : ℚ) : ℝ) := by exact_mod_cast hNu
    have hNwR : (0:ℝ) < ((normSq w : ℚ) : ℝ) := by exact_mod_cast hNw
    have hNqR : (0:ℝ) < ((normSq q : ℚ) : ℝ) := by exact_mod_cast hNq
    have hDu := mul_pos (Real.sqrt_pos.mpr hNuR) (Real.sqrt_pos.mpr hNqR)
    have hDw := mul_pos (Real.sqrt_pos.mpr hNwR) (Real.sqrt_pos.mpr hNqR)
    have hduR : (0:ℝ) < ((dot u q : ℚ) : ℝ) := by exact_mod_cast hdu
    have hdwR : (0:ℝ) < ((dot w q : ℚ) : ℝ) := by exact_mod_cast hdw
    rw [if_pos hdu, if_pos hdw, div_le_div_iff₀ hDw hDu,
      ← pow_le_pow_iff_left₀ (mul_nonneg hdwR.le hDu.le)
        (mul_nonneg hduR.le hDw.le) two_ne_zero,
      hexp _ _ _ hNuR.le hNqR.le, hexp _ _ _ hNwR.le hNqR.le,
      decide_eq_true_eq]
    constructor
    · intro hh
      have hh2 : dot w q ^ 2 * (normSq u * normSq q) ≤
          dot u q ^ 2 * (normSq w * normSq q) := by
        have h3 := mul_le_mul_of_nonneg_right hh hNq.le
        ring_nf at h3 ⊢
        linarith
      exact_mod_cast hh2
    · intro hh
      have hh2 : dot w q ^ 2 * (normSq u * normSq q) ≤
          dot u q ^ 2 * (normSq w * normSq q) := by exact_mod_cast hh
      have h3 : dot w q ^ 2 * normSq u * normSq q ≤
          dot u q ^ 2 * normSq w * normSq q := by ring_nf at hh2 ⊢; linarith
      exact (mul_cancel_right_iff hNq).mp h3
  · -- du > 0, dw = 0
    rw [if_pos hdu, if_neg (by rw [← hdw]; exact lt_irrefl 0)]
    refine iff_of_true rfl ?_
    have h1 : ((dot w q : ℚ) : ℝ) = 0 := by exact_mod_cast hdw.symm
    rw [h1, zero_div]
    have hNu : 0 < normSq u := normSq_pos_of_dot_ne (ne_of_gt hdu)
    have hNq : 0 < normSq q := by
      rw [dot_comm] at hdu
      exact normSq_pos_of_dot_ne (ne_of_gt hdu)
    have hD := mul_pos (Real.sqrt_pos.mpr (show (0:ℝ) < ((normSq u : ℚ) : ℝ) by
        exact_mod_cast hNu))
      (Real.sqrt_pos.mpr (show (0:ℝ) < ((normSq q : ℚ) : ℝ) by exact_mod_cast hNq))
    exact le_of_lt (div_pos (by exact_mod_cast hdu) hD)
  · -- du > 0, dw < 0
    rw [if_pos hdu, if_neg (by linarith)]
    refine iff_of_true rfl ?_
    have h1 : ((dot w q : ℚ) : ℝ) ≤ 0 := by exact_mod_cast hdw.le
    have hle : rsim w q ≤ 0 := by
      unfold rsim
      exact div_nonpos_of_nonpos_of_nonneg h1
        (mul_nonneg (Real.sqrt_nonneg _) (Real.sqrt_nonneg _))
    have hNu : 0 < normSq u := normSq_pos_of_dot_ne (ne_of_gt hdu)
    have hNq : 0 < normSq q := by
      rw [dot_comm] at hdu
      exact normSq_pos_of_dot_ne (ne_of_gt hdu)
    have hD := mul_pos (Real.sqrt_pos.mpr (show (0:ℝ) < ((normSq u : ℚ) : ℝ) by
        exact_mod_cast hNu))
      (Real.sqrt_pos.mpr (show (0:ℝ) < ((normSq q : ℚ) : ℝ) by exact_mod_cast hNq))
    have hgt := div_pos (show (0:ℝ) < ((dot u q : ℚ) : ℝ) by exact_mod_cast hdu) hD
    unfold rsim at hle
    linarith
  · -- du = 0, dw > 0
    rw [if_neg (by rw [← hdu]; exact lt_irrefl 0), if_pos hdw]
    refine iff_of_false (by simp) (not_le.mpr ?_)
    have h1 : ((dot u q : ℚ) : ℝ) = 0 := by exact_mod_cast hdu.symm
    rw [h1, zero_div]
    have hNw : 0 < normSq w := normSq_pos_of_dot_ne (ne_of_gt hdw)
    have hNq : 0 < normSq q := by
      rw [dot_comm] at hdw
      exact normSq_pos_of_dot_ne (ne_of_gt hdw)
    exact div_pos (by exact_mod_cast hdw)
      (mul_pos (Real.sqrt_pos.mpr (show (0:ℝ) < ((normSq w : ℚ) : ℝ) by
          exact_mod_cast hNw))
        (Real.sqrt_pos.mpr (show (0:ℝ) < ((normSq q : ℚ) : ℝ) by
          exact_mod_cast hNq)))
  · -- du = 0, dw = 0
    rw [if_neg (by rw [← hdu]; exact lt_irrefl 0),
      if_neg (by rw [← hdw]; exact lt_irrefl 0),
      if_neg (by rw [← hdu]; exact lt_irrefl 0)]
    refine iff_of_true rfl ?_
    have h1 : ((dot u q : ℚ) : ℝ) = 0 := by exact_mod_cast hdu.symm
    have h2 : ((dot w q : ℚ) : ℝ) = 0 := by exact_mod_cast hdw.symm
    rw [h1, h2, zero_div, zero_div]
  · -- du = 0, dw < 0
    rw [if_neg (by rw [← hdu]; exact lt_irrefl 0), if_neg (by linarith),
      if_neg (by rw [← hdu]; exact lt_irrefl 0)]
    refine iff_of_true rfl ?_
    have h1 : ((dot u q : ℚ) : ℝ) = 0 := by exact_mod_cast hdu.symm
    have h2 : ((dot w q : ℚ) : ℝ) ≤ 0 := by exact_mod_cast hdw.le
    rw [h1, zero_div]
    exact div_nonpos_of_nonpos_of_nonneg h2
      (mul_nonneg (Real.sqrt_nonneg _) (Real.sqrt_nonneg _))
  · -- du < 0, dw > 0
    rw [if_neg (by linarith), if_pos hdw]
    refine iff_of_false (by simp) (not_le.mpr ?_)
    have hNu : 0 < normSq u := normSq_pos_of_dot_ne (ne_of_lt hdu)
    have hNq : 0 < normSq q := by
      rw [dot_comm] at hdu
      exact normSq_pos_of_dot_ne (ne_of_lt hdu)
    have hNw : 0 < normSq w := normSq_pos_of_dot_ne (ne_of_gt hdw)
    have hneg := div_neg_of_neg_of_pos
      (show ((dot u q : ℚ) : ℝ) < 0 by exact_mod_cast hdu)
      (mul_pos (Real.sqrt_pos.mpr (show (0:ℝ) < ((normSq u : ℚ) : ℝ) by
          exact_mod_cast hNu))
        (Real.sqrt_pos.mpr (show (0:ℝ) < ((normSq q : ℚ) : ℝ) by
          exact_mod_cast hNq)))
    have hpos := div_pos (show (0:ℝ) < ((dot w q : ℚ) : ℝ) by exact_mod_cast hdw)
      (mul_pos (Real.sqrt_pos.mpr (show (0:ℝ) < ((normSq w : ℚ) : ℝ) by
          exact_mod_cast hNw))
        (Real.sqrt_pos.mpr (show (0:ℝ) < ((normSq q : ℚ) : ℝ) by
          exact_mod_cast hNq)))
    linarith
  · -- du < 0, dw = 0
    rw [if_neg (by linarith), if_neg (by rw [← hdw]; exact lt_irrefl 0),
      if_pos hdu, if_neg (by rw [← hdw]; exact lt_irrefl 0)]
    refine iff_of_false (by simp) (not_le.mpr ?_)
    have hNu : 0 < normSq u := normSq_pos_of_dot_ne (ne_of_lt hdu)
    have hNq : 0 < normSq q := by
      rw [dot_comm] at hdu
      exact normSq_pos_of_dot_ne (ne_of_lt hdu)
    have h2 : ((dot w q : ℚ) : ℝ) = 0 := by exact_mod_cast hdw.symm
    rw [h2, zero_div]
    exact div_neg_of_neg_of_pos
      (show ((dot u q : ℚ) : ℝ) < 0 by exact_mod_cast hdu)
      (mul_pos (Real.sqrt_pos.mpr (show (0:ℝ) < ((normSq u : ℚ) : ℝ) by
          exact_mod_cast hNu))
        (Real.sqrt_pos.mpr (show (0:ℝ) < ((normSq q : ℚ) : ℝ) by
          exact_mod_cast hNq)))
  · -- both negative
    have hNu : 0 < normSq u := normSq_pos_of_dot_ne (ne_of_lt hdu)
    have hNw : 0 < normSq w := normSq_pos_of_dot_ne (ne_of_lt hdw)
    have hNq : 0 < normSq q := by
      rw [dot_comm] at hdu
      exact normSq_pos_of_dot_ne (ne_of_lt hdu)
    have hNuR : (0:ℝ) < ((normSq u : ℚ) : ℝ) := by exact_mod_cast hNu
    have hNwR : (0:ℝ) < ((normSq w : ℚ) : ℝ) := by exact_mod_cast hNw
    have hNqR : (0:ℝ) < ((normSq q : ℚ) : ℝ) := by exact_mod_cast hNq
    have hDu := mul_pos (Real.sqrt_pos.mpr hNuR) (Real.sqrt_pos.mpr hNqR)
    have hDw := mul_pos (Real.sqrt_pos.mpr hNwR) (Real.sqrt_pos.mpr hNqR)
    have hduR : ((dot u q : ℚ) : ℝ) < 0 := by exact_mod_cast hdu
    have hdwR : ((dot w q : ℚ) : ℝ) < 0 := by exact_mod_cast hdw
    rw [if_neg (by linarith), if_neg (by linarith), if_pos hdu, if_pos hdw,
      div_le_div_iff₀ hDw hDu]
    have hflip : (((dot w q : ℚ) : ℝ) *
          (Real.sqrt ((normSq u : ℚ) : ℝ) * Real.sqrt ((normSq q : ℚ) : ℝ)) ≤
        ((dot u q : ℚ) : ℝ) *
          (Real.sqrt ((normSq w : ℚ) : ℝ) * Real.sqrt ((normSq q : ℚ) : ℝ))) ↔
        (-((dot u q : ℚ) : ℝ)) *
          (Real.sqrt ((normSq w : ℚ) : ℝ) * Real.sqrt ((normSq q : ℚ) : ℝ)) ≤
        (-((dot w q : ℚ) : ℝ)) *
          (Real.sqrt ((normSq u : ℚ) : ℝ) * Real.sqrt ((normSq q : ℚ) : ℝ)) := by
      constructor <;> intro hh <;> linarith
    rw [hflip,
      ← pow_le_pow_iff_left₀ (mul_nonneg (by linarith) hDw.le)
        (mul_nonneg (by linarith) hDu.le) two_ne_zero,
      hexp _ _ _ hNwR.le hNqR.le, hexp _ _ _ hNuR.le hNqR.le,
      neg_sq, neg_sq, decide_eq_true_eq]
    constructor
    · intro hh
      have hh2 : dot u q ^ 2 * (normSq w * normSq q) ≤
          dot w q ^ 2 * (normSq u * normSq q) := by
        have h3 := mul_le_mul_of_nonneg_right hh hNq.le
        ring_nf at h3 ⊢
        linarith
      exact_mod_cast hh2
    · intro hh
      have hh2 : dot u q ^ 2 * (normSq w * normSq q) ≤
          dot w q ^ 2 * (normSq u * normSq q) := by exact_mod_cast hh
      have h3 : dot u q ^ 2 * normSq w * normSq q ≤
          dot w q ^ 2 * normSq u * normSq q := by ring_nf at hh2 ⊢; linarith
      exact (mul_cancel_right_iff hNq).mp h3


end Aura
